import Mathlib

/-
Verification of the statistical-validation and cycle-characterization
routines of the `abm` analysis code base.

The Python sources are shallowly embedded:
* floating-point values become exact rationals (or reals where the code
  uses transcendental functions such as cos/sin/sqrt);
* pandas data frames become lists of records;
* fallible computations return an Option.

Each definition is translated directly from the named source function.
Functions belonging to external numeric libraries (scipy) that the
repository merely calls are modelled from the specification and marked
as such in their doc comments.
-/

namespace Abm

/-! ## Data model

`MarketRow` embeds one row of the market time-series CSV (only the columns
read by the checked functions); `Snapshot` embeds one row of the insurer
snapshots CSV.  The `loss_ratio` column is called `lossRat` here. -/

structure MarketRow where
  year : ℤ
  lossRat : ℚ
  total_premiums : ℚ
  total_claims : ℚ
deriving DecidableEq, Repr

structure Snapshot where
  year : ℤ
  insurer_id : ℤ
  capital : ℚ
  is_solvent : Bool
  lossRat : ℚ
  num_customers : ℚ
  price : ℚ
  market_share : ℚ
deriving DecidableEq, Repr

/-- Maximum of a list of integers (pandas `Series.max()` on a nonempty
column); the default for the empty list is irrelevant because every use
is guarded by a nonemptiness check. -/
def listMaxZ (l : List ℤ) : ℤ :=
  l.foldl max (l.headD 0)

/-- Maximum of a list of rationals (numpy `.max()` on a nonempty array). -/
def listMaxQ (l : List ℚ) : ℚ :=
  l.foldl max (l.headD 0)

/-! ## anomaly_detection.py -/

/-- One entry of the `issues` list built by
`check_shadow_state_consistency`. -/
inductive Issue where
  | negativeCapital (count : ℕ) (ids : List ℤ)
  | extremeLossRat (count : ℕ) (maxVal : ℚ) (ids : List ℤ)
deriving DecidableEq, Repr

/-- The snapshot rows of the final market year
(`insurer_snapshots[insurer_snapshots['year'] == final_year]`). -/
def finalInsurers (market : List MarketRow) (snaps : List Snapshot) : List Snapshot :=
  snaps.filter (fun s => s.year == listMaxZ (market.map (fun r => r.year)))

/-- The final-year rows with negative capital
(`final_insurers[final_insurers['capital'] < 0]`).  Note that the source
filters on `capital` alone, with no condition on `is_solvent`. -/
def negCapitalRows (market : List MarketRow) (snaps : List Snapshot) : List Snapshot :=
  (finalInsurers market snaps).filter (fun s => decide (s.capital < 0))

/-- The final-year rows with loss ratio above 2.0
(`final_insurers[final_insurers['loss_ratio'] > 2.0]`). -/
def extremeRows (market : List MarketRow) (snaps : List Snapshot) : List Snapshot :=
  (finalInsurers market snaps).filter (fun s => decide ((2 : ℚ) < s.lossRat))

/-- The `issues` list accumulated by `check_shadow_state_consistency`. -/
def shadowIssues (market : List MarketRow) (snaps : List Snapshot) : List Issue :=
  (if (negCapitalRows market snaps).isEmpty then [] else
    [Issue.negativeCapital (negCapitalRows market snaps).length
      ((negCapitalRows market snaps).map (fun s => s.insurer_id))]) ++
  (if (extremeRows market snaps).isEmpty then [] else
    [Issue.extremeLossRat (extremeRows market snaps).length
      (listMaxQ ((extremeRows market snaps).map (fun s => s.lossRat)))
      ((extremeRows market snaps).map (fun s => s.insurer_id))])

/-- Embeds `check_shadow_state_consistency` (anomaly_detection.py:37-108).
Returns `none` on the two error branches (empty market series, no
snapshots for the final year), otherwise `some (is_consistent, issues)`
with `is_consistent = (issues == [])`.  The informational `checks`
dictionary (market-share sum etc.) does not feed the verdict and is not
modelled. -/
def check_shadow_state_consistency (market : List MarketRow) (snaps : List Snapshot) :
    Option (Bool × List Issue) :=
  if market.isEmpty then none
  else if (finalInsurers market snaps).isEmpty then none
  else some ((shadowIssues market snaps).isEmpty, shadowIssues market snaps)

/-- The distinct insurer ids in first-occurrence order
(pandas `Series.unique()`). -/
def uniqueIds (l : List ℤ) : List ℤ :=
  l.foldl (fun acc x => if x ∈ acc then acc else acc ++ [x]) []

/-- Result record of `check_insolvency_rates`. -/
structure InsolvencyStats where
  total_insurer_years : ℕ
  insolvent_count : ℕ
  insolvency_rate : ℚ
  failed_insurers : List ℤ
  num_failed_insurers : ℕ
deriving DecidableEq, Repr

/-- Embeds `check_insolvency_rates` (anomaly_detection.py:144-173).
Returns `(exceeds_threshold, stats)`. -/
def check_insolvency_rates (snaps : List Snapshot) (threshold : ℚ := 1/5) :
    Bool × InsolvencyStats :=
  let total := snaps.length
  let insolvent := (snaps.filter (fun s => !s.is_solvent)).length
  let rate : ℚ := if 0 < total then (insolvent : ℚ) / (total : ℚ) else 0
  let failed := uniqueIds ((snaps.filter (fun s => !s.is_solvent)).map (fun s => s.insurer_id))
  (decide (threshold < rate),
    { total_insurer_years := total
      insolvent_count := insolvent
      insolvency_rate := rate
      failed_insurers := failed
      num_failed_insurers := failed.length })

/-! ## cycle_analysis.py — exact-arithmetic part -/

/-- Arithmetic mean of a list of rationals (`np.mean`); the empty list
yields `0/0 = 0`, matching the total division of the embedding. -/
def meanQ (l : List ℚ) : ℚ :=
  l.sum / (l.length : ℚ)

/-- Sample autocovariance at lag `k` used by `statsmodels acf`:
`(1/n) * sum over t of (x_t - mean) * (x_at (t+k) - mean)`. -/
def autocov (l : List ℚ) (k : ℕ) : ℚ :=
  (((List.range (l.length - k)).map
      (fun t => (l.getD t 0 - meanQ l) * (l.getD (t + k) 0 - meanQ l))).sum) / (l.length : ℚ)

/-- Lag-`k` sample autocorrelation (`statsmodels acf(series, nlags=2,
fft=False)[k]`): the lag-`k` autocovariance divided by the lag-0 one. -/
def acfQ (l : List ℚ) (k : ℕ) : ℚ :=
  autocov l k / autocov l 0

/-- Embeds `fit_ar2_yule_walker` (cycle_analysis.py:48-70). -/
def fit_ar2_yule_walker (l : List ℚ) : Option (ℚ × ℚ × ℚ) :=
  if l.length < 10 then none
  else
    let rho1 := acfQ l 1
    let rho2 := acfQ l 2
    let denom := 1 - rho1 ^ 2
    if |denom| < 1 / 10 ^ 10 then none
    else
      let a1 := rho1 * (1 - rho2) / denom
      let a2 := (rho2 - rho1 ^ 2) / denom
      let a0 := meanQ l * (1 - a1 - a2)
      some (a0, a1, a2)

/-- Embeds `check_cycle_conditions` (cycle_analysis.py:73-84): returns the
combined flag together with the three individual condition flags. -/
def check_cycle_conditions (a1 a2 : ℚ) : Bool × (Bool × Bool × Bool) :=
  let cond1 := decide (0 < a1)
  let cond2 := decide (-1 < a2 ∧ a2 < 0)
  let cond3 := decide (a1 ^ 2 + 4 * a2 < 0)
  (cond1 && cond2 && cond3, (cond1, cond2, cond3))

/-- Whether index `t` is a strict local maximum of `l`. -/
def isLocalMax (l : List ℚ) (t : ℕ) : Bool :=
  decide (0 < t) && decide (t + 1 < l.length) &&
    decide (l.getD (t - 1) 0 < l.getD t 0) && decide (l.getD (t + 1) 0 < l.getD t 0)

/-- Modelled from the spec: `scipy.signal.find_peaks(series, distance=d)`
is not part of the repository; per the spec a peak is a local maximum
with no taller neighbour within distance `d` on either side, ties
resolved by earliest index.  Returns the ordered peak indices. -/
def find_peaks (l : List ℚ) (d : ℕ) : List ℕ :=
  (List.range l.length).filter (fun t =>
    isLocalMax l t &&
      ((List.range l.length).all (fun j =>
        !(isLocalMax l j) || decide (d ≤ Int.natAbs ((j : ℤ) - (t : ℤ))) || j == t ||
          decide (l.getD j 0 < l.getD t 0) ||
          (decide (l.getD j 0 = l.getD t 0) && decide (t < j)))))

/-- The successive differences of the peak indices (`np.diff(peaks)`),
as rationals. -/
def peakDiffs (peaks : List ℕ) : List ℚ :=
  (peaks.zip peaks.tail).map (fun p => (p.2 : ℚ) - (p.1 : ℚ))

/-- Embeds `detect_cycles_peaks` (cycle_analysis.py:34-45): `(has_cycles,
cycle_period)`. -/
def detect_cycles_peaks (l : List ℚ) (d : ℕ) : Bool × Option ℚ :=
  let peaks := find_peaks l d
  if peaks.length < 2 then (false, none)
  else (decide (2 ≤ peaks.length), some (meanQ (peakDiffs peaks)))

/-! ## market_structure.py -/

/-- Embeds `calculate_herfindahl` (market_structure.py:31-41):
`np.sum(np.array(market_shares) ** 2)`. -/
def calculate_herfindahl (market_shares : List ℚ) : ℚ :=
  (market_shares.map (fun s => s ^ 2)).sum

/-- Cumulative sums of a list (`np.cumsum`): entry `i` is the sum of the
first `i + 1` elements. -/
def cumsum : List ℚ → List ℚ
  | [] => []
  | x :: t => x :: (cumsum t).map (fun c => x + c)

/-- Embeds `calculate_gini` (market_structure.py:44-66).  `np.sort` is modelled
by `List.insertionSort`, an ascending stable sort. -/
def calculate_gini (market_shares : List ℚ) : ℚ :=
  let n := market_shares.length
  if n = 0 ∨ market_shares.sum = 0 then 0
  else
    let c := cumsum (market_shares.insertionSort (fun a b => a ≤ b))
    ((n : ℚ) + 1 - 2 * c.sum / c.getLastD 0) / (n : ℚ)

/-! ## parameter_sensitivity.py -/

/-- One value of the `correlations` dictionary built by
`compute_correlations`. -/
structure CorrEntry where
  correlation : ℚ
  p_value : ℚ
  significant : Bool
deriving DecidableEq, Repr

/-- The (parameter, metric) pairs at which the metric value is present:
`np.isnan` masking is embedded by storing metric values as `Option ℚ`
with `none` for NaN, and this computes `param_values[valid]` zipped with
`metric_values[valid]`. -/
def validPairs (params : List ℚ) (vals : List (Option ℚ)) : List (ℚ × ℚ) :=
  (params.zip vals).filterMap (fun pv => pv.2.map (fun y => (pv.1, y)))

/-- Embeds `compute_correlations` (parameter_sensitivity.py:242-267).  The
external `scipy.stats.pearsonr` is passed in as the function `pearsonr`
returning the pair (coefficient, p-value).  A metric with fewer than 3
valid values is skipped (`continue`). -/
def compute_correlations (pearsonr : List ℚ → List ℚ → ℚ × ℚ)
    (params : List ℚ) (metrics : List (String × List (Option ℚ))) :
    List (String × CorrEntry) :=
  metrics.filterMap (fun m =>
    let pairs := validPairs params m.2
    if pairs.length < 3 then none
    else
      let r := pearsonr (pairs.map (fun p => p.1)) (pairs.map (fun p => p.2))
      some (m.1,
        { correlation := r.1, p_value := r.2, significant := decide (r.2 < 1/20) }))

/-! ## Real-valued part: periodogram (cycle_analysis.py) and the
two-sample comparison (analyze_exp3.py) -/

noncomputable section
open Classical

/-- Arithmetic mean of a list of reals (`np.mean`). -/
def meanR (l : List ℝ) : ℝ :=
  l.sum / (l.length : ℝ)

/-- The frequency grid `np.arange(0.05, 0.51, 0.01)` of `periodogram`
(cycle_analysis.py:93): the 46 values 0.05, 0.06, ..., 0.50. -/
def freqGrid : List ℝ :=
  (List.range 46).map (fun i : ℕ => 0.05 + 0.01 * (i : ℝ))

/-- The cosine accumulator of the periodogram loop
(cycle_analysis.py:96-104): sum over t of (x_t - mean) * cos(2 pi f t). -/
def cosSum (l : List ℝ) (f : ℝ) : ℝ :=
  ((List.range l.length).map
    (fun t => (l.getD t 0 - meanR l) * Real.cos (2 * Real.pi * f * (t : ℝ)))).sum

/-- The sine accumulator of the periodogram loop. -/
def sinSum (l : List ℝ) (f : ℝ) : ℝ :=
  ((List.range l.length).map
    (fun t => (l.getD t 0 - meanR l) * Real.sin (2 * Real.pi * f * (t : ℝ)))).sum

/-- Embeds `periodogram` (cycle_analysis.py:87-108): the power value for each
grid frequency, `(cos_sum^2 + sin_sum^2) / n`. -/
def periodogramPower (l : List ℝ) : List ℝ :=
  freqGrid.map (fun f => (cosSum l f ^ 2 + sinSum l f ^ 2) / (l.length : ℝ))

/-- Embeds `np.argmax`: index of the first occurrence of the maximal entry
(the accumulator is replaced only on a strictly greater value). -/
def argmaxIdx (p : List ℝ) : ℕ :=
  (List.range p.length).foldl (fun bi j => if p.getD bi 0 < p.getD j 0 then j else bi) 0

/-- Embeds `dominant_freq = freqs[np.argmax(power)]`
(plot_cycle_diagnostics, cycle_analysis.py:145-146). -/
def dominantFrequency (l : List ℝ) : ℝ :=
  freqGrid.getD (argmaxIdx (periodogramPower l)) 0

/-- Embeds `dominant_period = 1.0 / dominant_freq if dominant_freq > 0 else 0`
(cycle_analysis.py:147). -/
def dominantPeriod (l : List ℝ) : ℝ :=
  if 0 < dominantFrequency l then 1 / dominantFrequency l else 0

/-- Sample variance with one delta degree of freedom, as used inside the
pooled two-sample t statistic. -/
def sampleVar (l : List ℝ) : ℝ :=
  ((l.map (fun x => (x - meanR l) ^ 2)).sum) / ((l.length : ℝ) - 1)

/-- Modelled from the spec: the pooled variance of the equal-variance
two-sample t-test performed by `scipy.stats.ttest_ind` (analyze_exp3.py:62),
which is not part of the repository. -/
def pooledVar (a b : List ℝ) : ℝ :=
  (((a.length : ℝ) - 1) * sampleVar a + ((b.length : ℝ) - 1) * sampleVar b) /
    ((a.length : ℝ) + (b.length : ℝ) - 2)

/-- Modelled from the spec: the equal-variance two-sample t statistic of
`scipy.stats.ttest_ind`. -/
def tStat (a b : List ℝ) : ℝ :=
  (meanR a - meanR b) /
    Real.sqrt (pooledVar a b * (1 / (a.length : ℝ) + 1 / (b.length : ℝ)))

/-- Modelled from the spec: the two-sided p-value of
`scipy.stats.ttest_ind`, namely twice the Student-t survival function of
the absolute t statistic.  The survival function itself is external
library code and is passed in as `sf`; the only fact used about it is
the symmetry value `sf 0 = 1/2`. -/
def ttestPValue (sf : ℝ → ℝ) (a b : List ℝ) : ℝ :=
  2 * sf |tStat a b|

/-- The percent improvement relative to the first (baseline) group
(analyze_exp3.py:63). -/
def improvement (a b : List ℝ) : ℝ :=
  (meanR a - meanR b) / meanR a * 100

end

/-! ## Theorems -/

/-! ### Auxiliary lemmas about sums of squares and cumulative sums -/

theorem sum_map_sq_nonneg (l : List ℚ) : 0 ≤ (l.map (fun s => s ^ 2)).sum := by
  induction l with
  | nil => simp
  | cons x t ih =>
    simp only [List.map_cons, List.sum_cons]
    have hx := sq_nonneg x
    linarith

theorem sq_sum_le_length_mul_sum_sq (l : List ℚ) :
    l.sum ^ 2 ≤ (l.length : ℚ) * (l.map (fun s => s ^ 2)).sum := by
  have h1 : l.sum = ∑ i : Fin l.length, l.get i := by
    conv_lhs => rw [← List.ofFn_get l]
    exact List.sum_ofFn
  have h2 : (l.map (fun s => s ^ 2)).sum = ∑ i : Fin l.length, l.get i ^ 2 := by
    conv_lhs => rw [← List.ofFn_get l, List.map_ofFn]
    exact List.sum_ofFn
  rw [h1, h2]
  have h := Finset.sum_mul_sq_le_sq_mul_sq Finset.univ
    (fun i : Fin l.length => l.get i) (fun _ => 1)
  simpa [mul_comm] using h

theorem sum_sq_le_sq_sum (l : List ℚ) :
    (∀ x ∈ l, 0 ≤ x) → (l.map (fun s => s ^ 2)).sum ≤ l.sum ^ 2 := by
  induction l with
  | nil => simp
  | cons x t ih =>
    intro h
    simp only [List.map_cons, List.sum_cons]
    have hx : 0 ≤ x := h x (by simp)
    have ht : ∀ y ∈ t, 0 ≤ y := fun y hy => h y (by simp [hy])
    have hts : 0 ≤ t.sum := List.sum_nonneg ht
    have hih := ih ht
    have hcross : 0 ≤ x * t.sum := mul_nonneg hx hts
    nlinarith

theorem sum_map_add_left (M : List ℚ) (x : ℚ) :
    (M.map (fun c => x + c)).sum = (M.length : ℚ) * x + M.sum := by
  induction M with
  | nil => simp
  | cons m M ih =>
    simp only [List.map_cons, List.sum_cons, List.length_cons, ih]
    push_cast
    ring

theorem cumsum_length (l : List ℚ) : (cumsum l).length = l.length := by
  induction l with
  | nil => rfl
  | cons x t ih => simp [cumsum, ih]

theorem cumsum_sum_cons (x : ℚ) (t : List ℚ) :
    (cumsum (x :: t)).sum = ((t.length : ℚ) + 1) * x + (cumsum t).sum := by
  simp only [cumsum, List.sum_cons, sum_map_add_left, cumsum_length]
  ring

theorem cumsum_getLastD (l : List ℚ) (h : l ≠ []) : (cumsum l).getLastD 0 = l.sum := by
  induction l with
  | nil => exact absurd rfl h
  | cons x t ih =>
    cases t with
    | nil => simp [cumsum]
    | cons y u =>
      have hne : (y :: u) ≠ ([] : List ℚ) := by simp
      have hcne : cumsum (y :: u) ≠ [] := by
        intro hc
        have := cumsum_length (y :: u)
        rw [hc] at this
        simp at this
      rw [show cumsum (x :: y :: u) = x :: (cumsum (y :: u)).map (fun c => x + c) from rfl,
        List.getLastD_cons]
      rw [show ((cumsum (y :: u)).map (fun c => x + c)).getLastD x =
            ((cumsum (y :: u)).map (fun c => x + c)).getLast?.getD x from by
          rw [List.getLastD_eq_getLast?]]
      rw [List.getLast?_map]
      rw [show (cumsum (y :: u)).getLast? = some ((cumsum (y :: u)).getLastD 0) from by
          rw [List.getLastD_eq_getLast?]
          cases hc : (cumsum (y :: u)).getLast? with
          | none => exact absurd (List.getLast?_eq_none_iff.mp hc) hcne
          | some v => rfl]
      rw [ih hne]
      simp

theorem sum_le_cumsum_sum (l : List ℚ) :
    (∀ y ∈ l, 0 ≤ y) → l.sum ≤ (cumsum l).sum := by
  induction l with
  | nil => simp [cumsum]
  | cons x t ih =>
    intro h
    rw [cumsum_sum_cons, List.sum_cons]
    have ht : ∀ y ∈ t, 0 ≤ y := fun y hy => h y (by simp [hy])
    have hx : 0 ≤ x := h x (by simp)
    have hlen : (0:ℚ) ≤ (t.length : ℚ) := by positivity
    have := ih ht
    nlinarith

theorem length_mul_head_le_sum (t : List ℚ) (x : ℚ) :
    (∀ y ∈ t, x ≤ y) → (t.length : ℚ) * x ≤ t.sum := by
  induction t with
  | nil => simp
  | cons y u ih =>
    intro h
    simp only [List.length_cons, List.sum_cons]
    have hy : x ≤ y := h y (by simp)
    have hu : ∀ z ∈ u, x ≤ z := fun z hz => h z (by simp [hz])
    have := ih hu
    push_cast
    nlinarith

theorem sorted_cumsum_sum_le (l : List ℚ) :
    l.Sorted (fun a b => a ≤ b) → (∀ y ∈ l, 0 ≤ y) →
      2 * (cumsum l).sum ≤ ((l.length : ℚ) + 1) * l.sum := by
  induction l with
  | nil => simp [cumsum]
  | cons x t ih =>
    intro hs h
    obtain ⟨hhead, htail⟩ := List.sorted_cons.mp hs
    have ht : ∀ y ∈ t, 0 ≤ y := fun y hy => h y (by simp [hy])
    have hih := ih htail ht
    have hhd := length_mul_head_le_sum t x hhead
    rw [cumsum_sum_cons, List.sum_cons, List.length_cons]
    push_cast
    nlinarith

theorem sorted_replicate_le (n : ℕ) (s : ℚ) :
    (List.replicate n s).Sorted (fun a b => a ≤ b) := by
  induction n with
  | zero => simp
  | succ n ih =>
    rw [List.replicate_succ]
    refine List.sorted_cons.mpr ⟨fun b hb => ?_, ih⟩
    rw [List.eq_of_mem_replicate hb]

theorem cumsum_replicate_sum (s : ℚ) (n : ℕ) :
    (cumsum (List.replicate n s)).sum = s * n * (n + 1) / 2 := by
  induction n with
  | zero => simp [cumsum]
  | succ n ih =>
    rw [List.replicate_succ, cumsum_sum_cons, ih, List.length_replicate]
    push_cast
    ring

/-- C4: for every pair of rational coefficients, the combined
`cycle_conditions_met` flag is true iff `a1 > 0` and `-1 < a2 < 0` and
`a1^2 + 4*a2 < 0`; the three individual condition flags are returned and
the combined flag is their conjunction. -/
theorem c4_cycle_conditions (a1 a2 : ℚ) :
    ((check_cycle_conditions a1 a2).1 = true ↔
      0 < a1 ∧ (-1 < a2 ∧ a2 < 0) ∧ a1 ^ 2 + 4 * a2 < 0) ∧
    (check_cycle_conditions a1 a2).1 =
      ((check_cycle_conditions a1 a2).2.1 && (check_cycle_conditions a1 a2).2.2.1 &&
        (check_cycle_conditions a1 a2).2.2.2) ∧
    ((check_cycle_conditions a1 a2).2.1 = true ↔ 0 < a1) ∧
    ((check_cycle_conditions a1 a2).2.2.1 = true ↔ -1 < a2 ∧ a2 < 0) ∧
    ((check_cycle_conditions a1 a2).2.2.2 = true ↔ a1 ^ 2 + 4 * a2 < 0) := by
  simp [check_cycle_conditions, and_assoc]

/-- Witness for C4 at `a1 = 1`, `a2 = -1/2`: all three conditions hold
and the combined flag is true. -/
theorem c4_cycle_conditions_witness :
    (check_cycle_conditions 1 (-1/2)).1 = true :=
  (c4_cycle_conditions 1 (-1/2)).1.mpr (by norm_num)

/-- C10: the insolvency-rate check returns, on the empty snapshot set,
rate 0, flag false, empty failed list and zero totals (no division by
zero); on a nonempty set the rate is the insolvent row count divided by
the total row count, and the flag holds iff the rate strictly exceeds
the threshold. -/
theorem c10_insolvency_rates :
    (check_insolvency_rates [] =
      (false, { total_insurer_years := 0, insolvent_count := 0, insolvency_rate := 0,
                failed_insurers := [], num_failed_insurers := 0 })) ∧
    (∀ (snaps : List Snapshot) (t : ℚ), snaps ≠ [] →
      (check_insolvency_rates snaps t).2.insolvency_rate =
          ((snaps.filter (fun s => !s.is_solvent)).length : ℚ) / (snaps.length : ℚ) ∧
        ((check_insolvency_rates snaps t).1 = true ↔
          t < (check_insolvency_rates snaps t).2.insolvency_rate)) := by
  constructor
  · norm_num [check_insolvency_rates, uniqueIds]
  · intro snaps t h
    have hpos : 0 < snaps.length := List.length_pos.mpr h
    constructor
    · simp [check_insolvency_rates, hpos]
    · simp [check_insolvency_rates]

/-- Witness for C10 at a one-row insolvent snapshot set: the rate is 1
and the default threshold 1/5 is exceeded. -/
theorem c10_insolvency_rates_witness :
    (check_insolvency_rates
        [{ year := 0, insurer_id := 7, capital := -500, is_solvent := false,
           lossRat := 1, num_customers := 10, price := 1, market_share := 0 }]
        (1/5)).1 = true :=
  (c10_insolvency_rates.2 _ (1/5) (by decide)).2.mpr
    (by norm_num [check_insolvency_rates, uniqueIds])

/-- C1, counterexample: the negative-capital check of
`check_shadow_state_consistency` filters on `capital < 0` alone, so a
final-year row with `is_solvent = false` and `capital = -500` IS
flagged, contradicting the claim that only `is_solvent = true` rows are
flagged (under which this input would yield no issue and verdict pass). -/
theorem c1_counterexample :
    check_shadow_state_consistency
        [{ year := 0, lossRat := 1, total_premiums := 100, total_claims := 80 }]
        [{ year := 0, insurer_id := 7, capital := -500, is_solvent := false,
           lossRat := 1, num_customers := 10, price := 1, market_share := 0 }] =
      some (false, [Issue.negativeCapital 1 [7]]) ∧
    check_shadow_state_consistency
        [{ year := 0, lossRat := 1, total_premiums := 100, total_claims := 80 }]
        [{ year := 0, insurer_id := 7, capital := -500, is_solvent := false,
           lossRat := 1, num_customers := 10, price := 1, market_share := 0 }] ≠
      some (true, []) := by
  constructor
  · rfl
  · decide

/-- C1, amended: on a nonempty market series with snapshots present for
the final year, the check returns `some (issues.isEmpty, issues)`, and a
`negative_capital` issue appears iff some final-year row has
`capital < 0` — irrespective of `is_solvent` — carrying the count and
ids of exactly the final-year rows with negative capital. -/
theorem c1_negative_capital (market : List MarketRow) (snaps : List Snapshot)
    (h1 : market ≠ []) (h2 : finalInsurers market snaps ≠ []) :
    check_shadow_state_consistency market snaps =
      some ((shadowIssues market snaps).isEmpty, shadowIssues market snaps) ∧
    (∀ (c : ℕ) (ids : List ℤ),
      Issue.negativeCapital c ids ∈ shadowIssues market snaps ↔
        negCapitalRows market snaps ≠ [] ∧
          c = (negCapitalRows market snaps).length ∧
          ids = (negCapitalRows market snaps).map (fun s => s.insurer_id)) := by
  constructor
  · unfold check_shadow_state_consistency
    rw [if_neg (by simpa using h1), if_neg (by simpa using h2)]
  · intro c ids
    unfold shadowIssues
    by_cases hneg : (negCapitalRows market snaps).isEmpty
    · have : negCapitalRows market snaps = [] := by simpa using hneg
      by_cases hext : (extremeRows market snaps).isEmpty <;>
        simp [hneg, hext, this]
    · have hne : negCapitalRows market snaps ≠ [] := by simpa using hneg
      by_cases hext : (extremeRows market snaps).isEmpty <;>
        simp [hneg, hext, hne]

/-- Witness for C1 at the claim's own scenario: a single final-year row
with `is_solvent = true` and `capital = -500` produces a
`negative_capital` issue with count 1 and that insurer's id, and an
all-healthy snapshot set yields zero issues and verdict pass. -/
theorem c1_negative_capital_witness :
    Issue.negativeCapital 1 [7] ∈ shadowIssues
        [{ year := 0, lossRat := 1, total_premiums := 100, total_claims := 80 }]
        [{ year := 0, insurer_id := 7, capital := -500, is_solvent := true,
           lossRat := 1, num_customers := 10, price := 1, market_share := 0 }] ∧
    check_shadow_state_consistency
        [{ year := 0, lossRat := 1, total_premiums := 100, total_claims := 80 }]
        [{ year := 0, insurer_id := 5, capital := 1000, is_solvent := true,
           lossRat := 1, num_customers := 10, price := 1, market_share := 1 }] =
      some (true, []) := by
  constructor
  · exact ((c1_negative_capital _ _ (by decide) (by decide)).2 1 [7]).mpr (by decide)
  · exact ((c1_negative_capital _ _ (by decide) (by decide)).1).trans (by decide)

/-- C5: the peak-based cycle detector reports `has_cycles = true` iff at
least two peaks are found; with fewer than two peaks it returns
`(false, none)`, and otherwise the period is the arithmetic mean of the
successive peak-index differences. -/
theorem c5_detect_cycles (l : List ℚ) (d : ℕ) :
    ((detect_cycles_peaks l d).1 = true ↔ 2 ≤ (find_peaks l d).length) ∧
    ((find_peaks l d).length < 2 → detect_cycles_peaks l d = (false, none)) ∧
    (2 ≤ (find_peaks l d).length →
      detect_cycles_peaks l d = (true, some (meanQ (peakDiffs (find_peaks l d))))) := by
  unfold detect_cycles_peaks
  by_cases h : (find_peaks l d).length < 2
  · simp [h]
  · simp [h]

/-- Witness for C5 on a two-peak series: the detector returns
`has_cycles = true` with the mean inter-peak distance as period. -/
theorem c5_detect_cycles_witness :
    detect_cycles_peaks [0, 1, 0, 1, 0] 2 =
      (true, some (meanQ (peakDiffs (find_peaks [0, 1, 0, 1, 0] 2)))) :=
  (c5_detect_cycles [0, 1, 0, 1, 0] 2).2.2 (by decide)

/-- C2: the AR(2) Yule-Walker fit returns `none` exactly when the series
is shorter than 10 or the denominator `1 - rho1^2` is within `1e-10` of
zero; otherwise it returns exactly the coefficients
`a1 = rho1*(1-rho2)/(1-rho1^2)`, `a2 = (rho2-rho1^2)/(1-rho1^2)` and
`a0 = mean*(1-a1-a2)`, where `rho1`, `rho2` are the lag-1 and lag-2
sample autocorrelations. -/
theorem c2_fit_ar2 (l : List ℚ) :
    (fit_ar2_yule_walker l = none ↔
      l.length < 10 ∨ |1 - acfQ l 1 ^ 2| < 1 / 10 ^ 10) ∧
    (¬ (l.length < 10 ∨ |1 - acfQ l 1 ^ 2| < 1 / 10 ^ 10) →
      fit_ar2_yule_walker l =
        some (meanQ l * (1 - acfQ l 1 * (1 - acfQ l 2) / (1 - acfQ l 1 ^ 2)
                - (acfQ l 2 - acfQ l 1 ^ 2) / (1 - acfQ l 1 ^ 2)),
              acfQ l 1 * (1 - acfQ l 2) / (1 - acfQ l 1 ^ 2),
              (acfQ l 2 - acfQ l 1 ^ 2) / (1 - acfQ l 1 ^ 2))) := by
  constructor
  · simp only [fit_ar2_yule_walker]
    by_cases h1 : l.length < 10
    · simp [h1]
    · by_cases h2 : |1 - acfQ l 1 ^ 2| < 1 / 10 ^ 10
      · simp [h1, h2, one_div]
      · simp [h1, h2, one_div]
  · intro h
    obtain ⟨hA, hB⟩ := not_or.mp h
    simp only [fit_ar2_yule_walker]
    rw [if_neg hA, if_neg hB]

/-- Witness for C2 on the alternating ten-point series, which passes
both guards and yields the Yule-Walker coefficients. -/
theorem c2_fit_ar2_witness :
    fit_ar2_yule_walker [1, 0, 1, 0, 1, 0, 1, 0, 1, 0] =
      some (meanQ [1, 0, 1, 0, 1, 0, 1, 0, 1, 0] *
              (1 - acfQ [1, 0, 1, 0, 1, 0, 1, 0, 1, 0] 1 *
                    (1 - acfQ [1, 0, 1, 0, 1, 0, 1, 0, 1, 0] 2) /
                    (1 - acfQ [1, 0, 1, 0, 1, 0, 1, 0, 1, 0] 1 ^ 2)
                - (acfQ [1, 0, 1, 0, 1, 0, 1, 0, 1, 0] 2 -
                    acfQ [1, 0, 1, 0, 1, 0, 1, 0, 1, 0] 1 ^ 2) /
                    (1 - acfQ [1, 0, 1, 0, 1, 0, 1, 0, 1, 0] 1 ^ 2)),
            acfQ [1, 0, 1, 0, 1, 0, 1, 0, 1, 0] 1 *
              (1 - acfQ [1, 0, 1, 0, 1, 0, 1, 0, 1, 0] 2) /
              (1 - acfQ [1, 0, 1, 0, 1, 0, 1, 0, 1, 0] 1 ^ 2),
            (acfQ [1, 0, 1, 0, 1, 0, 1, 0, 1, 0] 2 -
              acfQ [1, 0, 1, 0, 1, 0, 1, 0, 1, 0] 1 ^ 2) /
              (1 - acfQ [1, 0, 1, 0, 1, 0, 1, 0, 1, 0] 1 ^ 2)) :=
  (c2_fit_ar2 [1, 0, 1, 0, 1, 0, 1, 0, 1, 0]).2 (by
    have h : acfQ [1, 0, 1, 0, 1, 0, 1, 0, 1, 0] 1 = -9/10 := by
      norm_num [acfQ, autocov, meanQ, List.range_succ]
    rw [h]
    norm_num
    rw [show |(19:ℚ)/100| = 19/100 from abs_of_pos (by norm_num)]
    norm_num)

/-- C6: the Herfindahl index is the sum of squared shares; on `N >= 1`
equal shares `1/N` it is exactly `1/N`; and on any nonnegative share
list summing to 1 it lies in the interval from one over the number of
shares up to 1. -/
theorem c6_herfindahl :
    (∀ shares : List ℚ, calculate_herfindahl shares = (shares.map (fun s => s ^ 2)).sum) ∧
    (∀ N : ℕ, 1 ≤ N →
      calculate_herfindahl (List.replicate N (1 / (N : ℚ))) = 1 / (N : ℚ)) ∧
    (∀ shares : List ℚ, (∀ x ∈ shares, 0 ≤ x) → shares.sum = 1 →
      1 / (shares.length : ℚ) ≤ calculate_herfindahl shares ∧
        calculate_herfindahl shares ≤ 1) := by
  refine ⟨fun shares => rfl, ?_, ?_⟩
  · intro N hN
    have hN0 : (N : ℚ) ≠ 0 := Nat.cast_ne_zero.mpr (by omega)
    simp only [calculate_herfindahl, List.map_replicate, List.sum_replicate, nsmul_eq_mul]
    field_simp
    ring
  · intro shares hpos hsum
    have hne : shares ≠ [] := by
      intro hc
      rw [hc] at hsum
      simp at hsum
    have hlen : 0 < shares.length := List.length_pos.mpr hne
    have hlenQ : (0 : ℚ) < (shares.length : ℚ) := by exact_mod_cast hlen
    constructor
    · have h := sq_sum_le_length_mul_sum_sq shares
      rw [hsum] at h
      rw [div_le_iff hlenQ]
      calc (1 : ℚ) = 1 ^ 2 := by norm_num
        _ ≤ (shares.length : ℚ) * (shares.map (fun s => s ^ 2)).sum := h
        _ = calculate_herfindahl shares * (shares.length : ℚ) := by
            rw [calculate_herfindahl]; ring
    · have h := sum_sq_le_sq_sum shares hpos
      rw [hsum] at h
      calc calculate_herfindahl shares = (shares.map (fun s => s ^ 2)).sum := rfl
        _ ≤ 1 ^ 2 := h
        _ = 1 := by norm_num

/-- Witness for C6: ten equal shares of one tenth give Herfindahl index
exactly one tenth, and the two-share split 1/2 + 1/2 obeys the
`[1/N, 1]` bounds. -/
theorem c6_herfindahl_witness :
    calculate_herfindahl (List.replicate 10 (1 / ((10 : ℕ) : ℚ))) = 1 / ((10 : ℕ) : ℚ) ∧
    (1 / ((([(1 : ℚ)/2, 1/2] : List ℚ).length : ℚ)) ≤ calculate_herfindahl [(1 : ℚ)/2, 1/2] ∧
      calculate_herfindahl [(1 : ℚ)/2, 1/2] ≤ 1) :=
  ⟨c6_herfindahl.2.1 10 (by norm_num),
   c6_herfindahl.2.2 [(1 : ℚ)/2, 1/2] (by norm_num) (by norm_num)⟩

/-- C7: the Gini coefficient is 0 on the empty list and on all-zero
shares; it is exactly 0 on any nonempty list of identical positive
shares; otherwise it equals
`(N + 1 - 2*sum(cumsum)/cumsum[last]) / N` computed on the
ascending-sorted shares; and on nonnegative inputs it always lies in
`[0, 1]`. -/
theorem c7_gini :
    (∀ l : List ℚ, (l = [] ∨ ∀ x ∈ l, x = 0) → calculate_gini l = 0) ∧
    (∀ (n : ℕ) (s : ℚ), 1 ≤ n → 0 < s → calculate_gini (List.replicate n s) = 0) ∧
    (∀ l : List ℚ, l.length ≠ 0 → l.sum ≠ 0 →
      calculate_gini l =
        ((l.length : ℚ) + 1 -
          2 * (cumsum (l.insertionSort (fun a b => a ≤ b))).sum /
            (cumsum (l.insertionSort (fun a b => a ≤ b))).getLastD 0) / (l.length : ℚ)) ∧
    (∀ l : List ℚ, (∀ x ∈ l, 0 ≤ x) →
      0 ≤ calculate_gini l ∧ calculate_gini l ≤ 1) := by
  have hformula : ∀ l : List ℚ, l.length ≠ 0 → l.sum ≠ 0 →
      calculate_gini l =
        ((l.length : ℚ) + 1 -
          2 * (cumsum (l.insertionSort (fun a b => a ≤ b))).sum /
            (cumsum (l.insertionSort (fun a b => a ≤ b))).getLastD 0) / (l.length : ℚ) := by
    intro l h1 h2
    simp only [calculate_gini]
    rw [if_neg (by push_neg; exact ⟨h1, h2⟩)]
  refine ⟨?_, ?_, hformula, ?_⟩
  · intro l h
    rcases h with h | h
    · subst h; rfl
    · have : l.sum = 0 := List.sum_eq_zero h
      simp only [calculate_gini]
      rw [if_pos (Or.inr this)]
  · intro n s hn hs
    have hlen : (List.replicate n s).length = n := List.length_replicate ..
    have hn0 : (n : ℚ) ≠ 0 := Nat.cast_ne_zero.mpr (by omega)
    have hsum : (List.replicate n s).sum = n * s := by
      rw [List.sum_replicate, nsmul_eq_mul]
    have hsum0 : (List.replicate n s).sum ≠ 0 := by
      rw [hsum]
      exact mul_ne_zero hn0 (ne_of_gt hs)
    rw [hformula (List.replicate n s) (by rw [hlen]; omega) hsum0]
    have hsorted : (List.replicate n s).insertionSort (fun a b => a ≤ b) =
        List.replicate n s :=
      List.Sorted.insertionSort_eq (sorted_replicate_le n s)
    rw [hsorted, hlen,
      cumsum_getLastD (List.replicate n s) (by
        intro hc
        rw [hc] at hlen
        simp at hlen
        omega),
      hsum, cumsum_replicate_sum]
    rw [div_eq_zero_iff]
    left
    field_simp
    ring
  · intro l hpos
    by_cases h0 : l.length = 0 ∨ l.sum = 0
    · have : calculate_gini l = 0 := by
        simp only [calculate_gini]
        rw [if_pos h0]
      rw [this]
      norm_num
    · push_neg at h0
      obtain ⟨hlen0, hsum0⟩ := h0
      have hperm : List.Perm (l.insertionSort (fun a b => a ≤ b)) l := l.perm_insertionSort _
      have hslen : (l.insertionSort (fun a b => a ≤ b)).length = l.length := hperm.length_eq
      have hssum : (l.insertionSort (fun a b => a ≤ b)).sum = l.sum := hperm.sum_eq
      have hsne : l.insertionSort (fun a b => a ≤ b) ≠ [] := by
        intro hc
        rw [hc] at hslen
        simp at hslen
        exact hlen0 hslen.symm
      have hsmem : ∀ y ∈ l.insertionSort (fun a b => a ≤ b), 0 ≤ y :=
        fun y hy => hpos y (hperm.mem_iff.mp hy)
      have hT : 0 < l.sum := lt_of_le_of_ne (List.sum_nonneg hpos) (Ne.symm hsum0)
      have hlast : (cumsum (l.insertionSort (fun a b => a ≤ b))).getLastD 0 = l.sum := by
        rw [cumsum_getLastD _ hsne, hssum]
      have hsort : (l.insertionSort (fun a b => a ≤ b)).Sorted (fun a b => a ≤ b) :=
        l.sorted_insertionSort _
      have hup : 2 * (cumsum (l.insertionSort (fun a b => a ≤ b))).sum ≤
          ((l.length : ℚ) + 1) * l.sum := by
        have h := sorted_cumsum_sum_le (l.insertionSort (fun a b => a ≤ b)) hsort hsmem
        rw [hslen, hssum] at h
        exact h
      have hlow : l.sum ≤ (cumsum (l.insertionSort (fun a b => a ≤ b))).sum := by
        have h := sum_le_cumsum_sum (l.insertionSort (fun a b => a ≤ b)) hsmem
        rw [hssum] at h
        exact h
      have hlenQ : (0 : ℚ) < (l.length : ℚ) := by
        exact_mod_cast Nat.pos_of_ne_zero hlen0
      rw [hformula l hlen0 hsum0, hlast]
      constructor
      · apply div_nonneg _ (le_of_lt hlenQ)
        rw [sub_nonneg, div_le_iff hT]
        linarith
      · rw [div_le_one hlenQ]
        have h2 : 1 ≤ 2 * (cumsum (l.insertionSort (fun a b => a ≤ b))).sum / l.sum := by
          rw [le_div_iff hT]
          linarith
        linarith

/-- Witness for C7: three identical shares of 2 have Gini exactly 0, and
the unequal split `[1/4, 3/4]` has Gini within `[0, 1]`. -/
theorem c7_gini_witness :
    calculate_gini (List.replicate 3 2) = 0 ∧
    (0 ≤ calculate_gini [(1 : ℚ)/4, 3/4] ∧ calculate_gini [(1 : ℚ)/4, 3/4] ≤ 1) :=
  ⟨c7_gini.2.1 3 2 (by norm_num) (by norm_num),
   c7_gini.2.2.2 [(1 : ℚ)/4, 3/4] (by norm_num)⟩

/-- C8: for any survival function with the Student-t symmetry value
`sf 0 = 1/2`, the two-sample comparison of a group with itself (two
element-for-element equal groups with nonzero variance and nonzero
mean) yields a t-test p-value of exactly 1 and a percent improvement of
exactly 0. -/
theorem c8_identical_groups (sf : ℝ → ℝ) (hsf : sf 0 = 1/2) (a : List ℝ)
    (hvar : sampleVar a ≠ 0) (hmean : meanR a ≠ 0) :
    ttestPValue sf a a = 1 ∧ improvement a a = 0 := by
  have ht : tStat a a = 0 := by
    unfold tStat
    rw [sub_self, zero_div]
  constructor
  · unfold ttestPValue
    rw [ht, abs_zero, hsf]
    norm_num
  · unfold improvement
    rw [sub_self, zero_div, zero_mul]

/-- Witness for C8 on the concrete group `[0, 1]` (mean 1/2, sample
variance 1/2) with the constant survival function 1/2. -/
theorem c8_identical_groups_witness :
    ttestPValue (fun _ => 1/2) [0, 1] [0, 1] = 1 ∧ improvement [0, 1] [0, 1] = 0 :=
  c8_identical_groups (fun _ => 1/2) rfl [0, 1]
    (by norm_num [sampleVar, meanR]) (by norm_num [meanR])

/-- C9, counterexample: a metric with fewer than 3 valid (non-NaN)
values is skipped silently — the correlation result contains no entry
for it at all, and in particular no "insufficient" report, contradicting
the claim that such metrics are reported as insufficient.  Here the
metric M has only 2 valid values and the whole output is empty. -/
theorem c9_counterexample :
    compute_correlations (fun xs ys => (xs.sum * ys.sum, 0)) [1, 2, 3]
      [("M", [some 1, some 2, none])] = [] := by
  rfl

/-- C9, amended: every entry of the correlation output comes from a
metric with at least 3 valid values, computed from the non-NaN subset,
with the Pearson pair as coefficient and p-value and with the
significance flag holding iff `p < 0.05`; conversely every metric with
at least 3 valid values does produce an output entry carrying its name
and exactly that Pearson data; and if every metric has fewer than 3
valid values the output is empty (metrics below the cutoff are silently
excluded, with no insufficiency marker produced). -/
theorem c9_correlations (pearsonr : List ℚ → List ℚ → ℚ × ℚ)
    (params : List ℚ) (metrics : List (String × List (Option ℚ))) :
    (∀ e ∈ compute_correlations pearsonr params metrics,
      ∃ m ∈ metrics, e.1 = m.1 ∧ 3 ≤ (validPairs params m.2).length ∧
        e.2.correlation =
          (pearsonr ((validPairs params m.2).map (fun p => p.1))
            ((validPairs params m.2).map (fun p => p.2))).1 ∧
        e.2.p_value =
          (pearsonr ((validPairs params m.2).map (fun p => p.1))
            ((validPairs params m.2).map (fun p => p.2))).2 ∧
        (e.2.significant = true ↔ e.2.p_value < 1/20)) ∧
    (∀ m ∈ metrics, 3 ≤ (validPairs params m.2).length →
      ((m.1,
        { correlation :=
            (pearsonr ((validPairs params m.2).map (fun p => p.1))
              ((validPairs params m.2).map (fun p => p.2))).1
          p_value :=
            (pearsonr ((validPairs params m.2).map (fun p => p.1))
              ((validPairs params m.2).map (fun p => p.2))).2
          significant :=
            decide ((pearsonr ((validPairs params m.2).map (fun p => p.1))
              ((validPairs params m.2).map (fun p => p.2))).2 < 1/20) }) :
          String × CorrEntry) ∈
        compute_correlations pearsonr params metrics) ∧
    ((∀ m ∈ metrics, (validPairs params m.2).length < 3) →
      compute_correlations pearsonr params metrics = []) := by
  refine ⟨?_, ?_, ?_⟩
  · intro e he
    obtain ⟨m, hm, hfme⟩ := List.mem_filterMap.mp he
    simp only at hfme
    by_cases hlen : (validPairs params m.2).length < 3
    · rw [if_pos hlen] at hfme
      cases hfme
    · rw [if_neg hlen] at hfme
      obtain rfl := Option.some.inj hfme
      refine ⟨m, hm, rfl, by omega, rfl, rfl, ?_⟩
      simp
  · intro m hm hlen
    refine List.mem_filterMap.mpr ⟨m, hm, ?_⟩
    simp only
    rw [if_neg (not_lt.mpr hlen)]
  · intro h
    apply List.filterMap_eq_nil.mpr
    intro m hm
    simp only
    rw [if_pos (h m hm)]

/-- Witness for C9: the metric M with exactly 3 valid values produces
its entry carrying the Pearson data of the valid subset, and with every
metric below the 3-valid-value cutoff the output is empty. -/
theorem c9_correlations_witness :
    ((("M",
      { correlation :=
          ((fun (xs ys : List ℚ) => (xs.sum, ys.sum))
            ((validPairs [1, 2, 3] [some 1, some 2, some 5]).map (fun p => p.1))
            ((validPairs [1, 2, 3] [some 1, some 2, some 5]).map (fun p => p.2))).1
        p_value :=
          ((fun (xs ys : List ℚ) => (xs.sum, ys.sum))
            ((validPairs [1, 2, 3] [some 1, some 2, some 5]).map (fun p => p.1))
            ((validPairs [1, 2, 3] [some 1, some 2, some 5]).map (fun p => p.2))).2
        significant :=
          decide (((fun (xs ys : List ℚ) => (xs.sum, ys.sum))
            ((validPairs [1, 2, 3] [some 1, some 2, some 5]).map (fun p => p.1))
            ((validPairs [1, 2, 3] [some 1, some 2, some 5]).map (fun p => p.2))).2
              < 1/20) }) : String × CorrEntry) ∈
      compute_correlations (fun xs ys => (xs.sum, ys.sum)) [1, 2, 3]
        [("M", [some 1, some 2, some 5])]) ∧
    compute_correlations (fun _ _ => (1, 1)) [1, 2, 3] [("K", [none, none, none])] = [] :=
  ⟨(c9_correlations (fun xs ys => (xs.sum, ys.sum)) [1, 2, 3]
      [("M", [some 1, some 2, some 5])]).2.1
      ("M", [some 1, some 2, some 5]) (by decide) (by decide),
   (c9_correlations (fun _ _ => (1, 1)) [1, 2, 3] [("K", [none, none, none])]).2.2
    (by decide)⟩

/-! ### Auxiliary lemmas for the periodogram argmax -/

theorem argmax_foldl_spec (p : List ℝ) (n : ℕ) :
    ((List.range n).foldl (fun bi j => if p.getD bi 0 < p.getD j 0 then j else bi) 0 ≤ n ∧
      (0 < n →
        (List.range n).foldl (fun bi j => if p.getD bi 0 < p.getD j 0 then j else bi) 0 < n)) ∧
    (∀ j, j < n → p.getD j 0 ≤
      p.getD ((List.range n).foldl (fun bi j => if p.getD bi 0 < p.getD j 0 then j else bi) 0) 0) ∧
    (∀ j, j < (List.range n).foldl (fun bi j => if p.getD bi 0 < p.getD j 0 then j else bi) 0 →
      p.getD j 0 <
        p.getD ((List.range n).foldl (fun bi j => if p.getD bi 0 < p.getD j 0 then j else bi) 0) 0) := by
  induction n with
  | zero =>
    refine ⟨⟨Nat.le_refl 0, by omega⟩, by omega, by simp⟩
  | succ n ih =>
    obtain ⟨⟨hle, hlt⟩, hmax, hfirst⟩ := ih
    have hstep : (List.range (n + 1)).foldl
        (fun bi j => if p.getD bi 0 < p.getD j 0 then j else bi) 0 =
        (if p.getD ((List.range n).foldl
            (fun bi j => if p.getD bi 0 < p.getD j 0 then j else bi) 0) 0 < p.getD n 0
          then n
          else (List.range n).foldl (fun bi j => if p.getD bi 0 < p.getD j 0 then j else bi) 0) := by
      rw [List.range_succ, List.foldl_append, List.foldl_cons, List.foldl_nil]
    by_cases hc : p.getD ((List.range n).foldl
        (fun bi j => if p.getD bi 0 < p.getD j 0 then j else bi) 0) 0 < p.getD n 0
    · rw [hstep, if_pos hc]
      refine ⟨⟨by omega, by omega⟩, ?_, ?_⟩
      · intro j hj
        rcases Nat.lt_succ_iff_lt_or_eq.mp hj with hj | hj
        · exact le_of_lt (lt_of_le_of_lt (hmax j hj) hc)
        · subst hj; exact le_refl _
      · intro j hj
        exact lt_of_le_of_lt (hmax j hj) hc
    · rw [hstep, if_neg hc]
      refine ⟨⟨by omega, by omega⟩, ?_, hfirst⟩
      intro j hj
      rcases Nat.lt_succ_iff_lt_or_eq.mp hj with hj | hj
      · exact hmax j hj
      · subst hj; exact le_of_not_lt hc

theorem freqGrid_length : freqGrid.length = 46 := by
  simp only [freqGrid, List.length_map, List.length_range]

theorem freqGrid_getD (i : ℕ) (h : i < 46) :
    freqGrid.getD i 0 = 0.05 + 0.01 * (i : ℝ) := by
  simp only [freqGrid]
  rw [List.getD_eq_getElem?_getD, List.getElem?_map, List.getElem?_range h]
  rfl

theorem freqGrid_getD_pos (i : ℕ) (h : i < 46) : 0 < freqGrid.getD i 0 := by
  rw [freqGrid_getD i h]
  have : (0:ℝ) ≤ (i : ℝ) := Nat.cast_nonneg i
  norm_num
  nlinarith

theorem periodogramPower_length (l : List ℝ) : (periodogramPower l).length = 46 := by
  simp only [periodogramPower, List.length_map, freqGrid_length]

theorem periodogramPower_getD (l : List ℝ) (i : ℕ) (h : i < 46) :
    (periodogramPower l).getD i 0 =
      (cosSum l (freqGrid.getD i 0) ^ 2 + sinSum l (freqGrid.getD i 0) ^ 2) /
        (l.length : ℝ) := by
  have hlt : i < freqGrid.length := by rw [freqGrid_length]; exact h
  simp only [periodogramPower]
  rw [List.getD_eq_getElem?_getD, List.getElem?_map, List.getElem?_eq_getElem hlt,
    List.getD_eq_getElem freqGrid 0 hlt]
  rfl

/-- C3: the periodogram is evaluated on the 46-point grid
0.05, 0.06, ..., 0.50; at grid index `i` the power equals
`(C(f)^2 + S(f)^2)/n` for the cosine and sine deviation sums at that
frequency; the dominant index is a maximizer of the power, every
strictly earlier index has strictly smaller power (first-of-ties), the
dominant frequency is the grid value at that index and the dominant
period is its reciprocal. -/
theorem c3_periodogram (l : List ℝ) :
    (periodogramPower l).length = 46 ∧
    (∀ i, i < 46 → freqGrid.getD i 0 = 0.05 + 0.01 * (i : ℝ)) ∧
    (∀ i, i < 46 → (periodogramPower l).getD i 0 =
      (cosSum l (freqGrid.getD i 0) ^ 2 + sinSum l (freqGrid.getD i 0) ^ 2) /
        (l.length : ℝ)) ∧
    argmaxIdx (periodogramPower l) < 46 ∧
    (∀ j, j < 46 → (periodogramPower l).getD j 0 ≤
      (periodogramPower l).getD (argmaxIdx (periodogramPower l)) 0) ∧
    (∀ j, j < argmaxIdx (periodogramPower l) → (periodogramPower l).getD j 0 <
      (periodogramPower l).getD (argmaxIdx (periodogramPower l)) 0) ∧
    dominantFrequency l = freqGrid.getD (argmaxIdx (periodogramPower l)) 0 ∧
    dominantPeriod l = 1 / dominantFrequency l := by
  have hplen : (periodogramPower l).length = 46 := periodogramPower_length l
  have hspec := argmax_foldl_spec (periodogramPower l) 46
  have hargdef : argmaxIdx (periodogramPower l) =
      (List.range 46).foldl
        (fun bi j => if (periodogramPower l).getD bi 0 < (periodogramPower l).getD j 0
          then j else bi) 0 := by
    rw [argmaxIdx, hplen]
  obtain ⟨⟨hle, hlt⟩, hmax, hfirst⟩ := hspec
  have hklt : argmaxIdx (periodogramPower l) < 46 := by
    rw [hargdef]; exact hlt (by omega)
  refine ⟨hplen, fun i hi => freqGrid_getD i hi, fun i hi => periodogramPower_getD l i hi,
    hklt, ?_, ?_, rfl, ?_⟩
  · intro j hj
    rw [hargdef]
    exact hmax j hj
  · intro j hj
    rw [hargdef] at hj ⊢
    exact hfirst j hj
  · have hpos : 0 < dominantFrequency l := by
      rw [show dominantFrequency l = freqGrid.getD (argmaxIdx (periodogramPower l)) 0 from rfl]
      exact freqGrid_getD_pos _ hklt
    rw [dominantPeriod, if_pos hpos]

/-- Witness for C3 at the concrete series `[0, 0]`: the first grid
frequency is 0.05, the power at grid index 3 is bounded by the dominant
power, and the dominant period is the reciprocal of the dominant
frequency. -/
theorem c3_periodogram_witness :
    freqGrid.getD 0 0 = 0.05 + 0.01 * ((0 : ℕ) : ℝ) ∧
    (periodogramPower [0, 0]).getD 3 0 ≤
      (periodogramPower [0, 0]).getD (argmaxIdx (periodogramPower [0, 0])) 0 ∧
    dominantPeriod [0, 0] = 1 / dominantFrequency [0, 0] :=
  ⟨(c3_periodogram [0, 0]).2.1 0 (by norm_num),
   (c3_periodogram [0, 0]).2.2.2.2.1 3 (by norm_num),
   (c3_periodogram [0, 0]).2.2.2.2.2.2.2⟩

end Abm
